import Mathlib

/-!
Verification of the Duoram-style two-party secret-shared RAM in `duoram_py`
(coordinator.py, party_client.py, share_server.py).

Shallow embedding conventions:
* Python integers are unbounded, so share vectors are `List Int` and all
  arithmetic is exact integer arithmetic; `zip`-based comprehensions become
  `List.zipWith` (which, like Python `zip`, truncates to the shorter list).
* Randomness (`random.randint`, `random.getrandbits`) is modelled by passing
  the entropy explicitly: a draw becomes a function of a `Nat` seed.
* `struct.pack("!q", x)` raises `struct.error` outside the i64 range, so it
  becomes an `Option`; the 8 produced big-endian bytes are represented by
  their value as an unsigned 64-bit word.
* Fallible socket handlers become `Except`-valued functions; the frames a
  handler would read from a socket are passed in as explicit arguments.
-/

set_option maxHeartbeats 1000000

namespace DuoramPy

/-- The `--role {A,B}` label of a party (party_client.py). -/
inductive Role where
  | A
  | B
deriving DecidableEq

/-- `dot(a,b) = sum(x*y for x,y in zip(a,b))` from party_client.py /
share_server.py.  Python `zip` truncates to the shorter operand. -/
def dot (a b : List Int) : Int := (List.zipWith (fun x y => x * y) a b).sum

/-- Element-wise sum `[x+y for x,y in zip(a,b)]` (share_server.py), also the
WRITE accumulation `A_share[i] += vec[i]` when both have length `rows`. -/
def vadd (a b : List Int) : List Int := List.zipWith (fun x y => x + y) a b

/-- Element-wise difference, e.g. `[my_input[i] - a_i[i] for i in range(dim)]`. -/
def vsub (a b : List Int) : List Int := List.zipWith (fun x y => x - y) a b

/-- Element-wise negation, e.g. `[-b_i[i] for i in range(dim)]`. -/
def vneg (a : List Int) : List Int := a.map (fun x => -x)

/-- `random.randint(1, 1024)` (rand_elem in share_server.py, and the elements
of `rand_vec` in coordinator.py), driven by an explicit entropy input. -/
def rand_elem (r : Nat) : Int := 1 + ((r % 1024 : Nat) : Int)

/-- `rand_vec(n) = [rand_elem() for _ in range(n)]`, one seed per draw. -/
def rand_vec (n : Nat) (seed : Nat → Nat) : List Int :=
  (List.range n).map (fun i => rand_elem (seed i))

/-- `random.getrandbits(63)` (the dealer's `sid`). -/
def getrandbits63 (r : Nat) : Int := ((r % 2 ^ 63 : Nat) : Int)

/-- The vector `e = [0]*dim; e[idx] = val` built in
`make_standard_basis_share` (coordinator.py).  All call sites have
`idx < dim` (the CLI validates `idx < dim`). -/
def basis_vec (dim idx : Nat) (val : Int) : List Int :=
  (List.range dim).map (fun t => if t = idx then val else 0)

/-- `make_standard_basis_share(dim, idx, val)` from coordinator.py:
`f = rand_vec(dim)`, `e = val*e_idx - f`; returns `(e, f)`. -/
def make_standard_basis_share (dim idx : Nat) (val : Int) (seed : Nat → Nat) :
    List Int × List Int :=
  (vsub (basis_vec dim idx val) (rand_vec dim seed), rand_vec dim seed)

def i64_min : Int := -(2 ^ 63)

def i64_max : Int := 2 ^ 63 - 1

/-- `struct.pack("!q", int(x))` (pack_i64): 8 big-endian bytes, represented
here by their value as an unsigned 64-bit word.  For `x` outside the signed
64-bit range Python raises `struct.error` — it does not wrap — modelled as
`none`. -/
def pack_i64 (x : Int) : Option Int :=
  if i64_min ≤ x ∧ x ≤ i64_max then some (x % 2 ^ 64) else none

/-- `struct.unpack("!q", ...)` (read_i64): reinterpret the unsigned 64-bit
word as a signed i64. -/
def unpack_i64 (w : Int) : Int := if w < 2 ^ 63 then w else w - 2 ^ 64

/- ------------------------------------------------------------------ -/
/- Basic algebraic lemmas about `dot`, `vadd`, `vsub`, `vneg`.        -/
/- ------------------------------------------------------------------ -/

theorem dot_nil_left (b : List Int) : dot [] b = 0 := rfl

theorem dot_nil_right (a : List Int) : dot a [] = 0 := by cases a <;> rfl

theorem dot_cons (x y : Int) (a b : List Int) :
    dot (x :: a) (y :: b) = x * y + dot a b := by
  simp [dot]

theorem vadd_nil_left (b : List Int) : vadd [] b = [] := rfl

theorem vadd_nil_right (a : List Int) : vadd a [] = [] := by cases a <;> rfl

theorem vadd_cons (x y : Int) (a b : List Int) :
    vadd (x :: a) (y :: b) = (x + y) :: vadd a b := rfl

theorem vsub_cons (x y : Int) (a b : List Int) :
    vsub (x :: a) (y :: b) = (x - y) :: vsub a b := rfl

theorem vneg_cons (x : Int) (a : List Int) : vneg (x :: a) = (-x) :: vneg a := rfl

theorem vadd_length (a b : List Int) :
    (vadd a b).length = min a.length b.length := by
  simp [vadd]

theorem vsub_length (a b : List Int) :
    (vsub a b).length = min a.length b.length := by
  simp [vsub]

theorem vneg_length (a : List Int) : (vneg a).length = a.length := by
  simp [vneg]

theorem rand_vec_length (n : Nat) (seed : Nat → Nat) :
    (rand_vec n seed).length = n := by
  simp [rand_vec]

theorem basis_vec_length (dim idx : Nat) (val : Int) :
    (basis_vec dim idx val).length = dim := by
  simp [basis_vec]

theorem dot_comm (a : List Int) : ∀ b, dot a b = dot b a := by
  induction a with
  | nil => intro b; rw [dot_nil_left, dot_nil_right]
  | cons x a ih =>
    intro b
    cases b with
    | nil => rw [dot_nil_left, dot_nil_right]
    | cons y b => rw [dot_cons, dot_cons, ih, mul_comm]

theorem dot_vadd_left (a : List Int) :
    ∀ b c, a.length = b.length → dot (vadd a b) c = dot a c + dot b c := by
  induction a with
  | nil =>
    intro b c h
    cases b with
    | nil => simp [vadd_nil_left, dot_nil_left]
    | cons y b => simp at h
  | cons x a ih =>
    intro b c h
    cases b with
    | nil => simp at h
    | cons y b =>
      cases c with
      | nil => simp [dot_nil_right]
      | cons z c =>
        rw [vadd_cons, dot_cons, dot_cons, dot_cons,
          ih b c (by simpa using h)]
        ring

theorem dot_vadd_right (a : List Int) :
    ∀ b c, b.length = c.length → dot a (vadd b c) = dot a b + dot a c := by
  induction a with
  | nil => intro b c _; simp [dot_nil_left]
  | cons x a ih =>
    intro b c h
    cases b with
    | nil =>
      cases c with
      | nil => simp [vadd_nil_left, dot_nil_right]
      | cons z c => simp at h
    | cons y b =>
      cases c with
      | nil => simp at h
      | cons z c =>
        rw [vadd_cons, dot_cons, dot_cons, dot_cons,
          ih b c (by simpa using h)]
        ring

theorem dot_vsub_left (a : List Int) :
    ∀ b c, a.length = b.length → dot (vsub a b) c = dot a c - dot b c := by
  induction a with
  | nil =>
    intro b c h
    cases b with
    | nil => simp [vsub, dot_nil_left]
    | cons y b => simp at h
  | cons x a ih =>
    intro b c h
    cases b with
    | nil => simp at h
    | cons y b =>
      cases c with
      | nil => simp [dot_nil_right]
      | cons z c =>
        rw [vsub_cons, dot_cons, dot_cons, dot_cons,
          ih b c (by simpa using h)]
        ring

theorem dot_vsub_right (a : List Int) :
    ∀ b c, b.length = c.length → dot a (vsub b c) = dot a b - dot a c := by
  induction a with
  | nil => intro b c _; simp [dot_nil_left]
  | cons x a ih =>
    intro b c h
    cases b with
    | nil =>
      cases c with
      | nil => simp [vsub, dot_nil_right]
      | cons z c => simp at h
    | cons y b =>
      cases c with
      | nil => simp at h
      | cons z c =>
        rw [vsub_cons, dot_cons, dot_cons, dot_cons,
          ih b c (by simpa using h)]
        ring

theorem vadd_comm (a : List Int) : ∀ b, vadd a b = vadd b a := by
  induction a with
  | nil => intro b; rw [vadd_nil_left, vadd_nil_right]
  | cons x a ih =>
    intro b
    cases b with
    | nil => rw [vadd_nil_left, vadd_nil_right]
    | cons y b => rw [vadd_cons, vadd_cons, ih, Int.add_comm]

theorem vadd_vadd_swap (a : List Int) :
    ∀ b c d, vadd (vadd a b) (vadd c d) = vadd (vadd a c) (vadd b d) := by
  induction a with
  | nil => intro b c d; simp [vadd_nil_left]
  | cons x a ih =>
    intro b c d
    cases b with
    | nil => simp [vadd_nil_right, vadd_nil_left]
    | cons y b =>
      cases c with
      | nil => simp [vadd_nil_right, vadd_nil_left]
      | cons z c =>
        cases d with
        | nil => simp [vadd_nil_right]
        | cons w d =>
          rw [vadd_cons, vadd_cons, vadd_cons, vadd_cons, vadd_cons, vadd_cons,
            ih b c d]
          congr 1
          ring

theorem vadd_vsub_cancel (a : List Int) :
    ∀ b, a.length = b.length → vadd (vsub a b) b = a := by
  induction a with
  | nil =>
    intro b h
    cases b with
    | nil => rfl
    | cons y b => simp at h
  | cons x a ih =>
    intro b h
    cases b with
    | nil => simp at h
    | cons y b =>
      rw [vsub_cons, vadd_cons, ih b (by simpa using h)]
      congr 1
      ring

theorem vsub_vneg_norm (x : List Int) :
    ∀ p q, x.length = p.length → p.length = q.length →
      vadd (vsub x p) (vneg q) = vsub x (vadd p q) := by
  induction x with
  | nil =>
    intro p q h1 h2
    cases p with
    | nil => simp [vsub, vadd_nil_left]
    | cons b p => simp at h1
  | cons a x ih =>
    intro p q h1 h2
    cases p with
    | nil => simp at h1
    | cons b p =>
      cases q with
      | nil => simp at h2
      | cons c q =>
        rw [vsub_cons, vneg_cons, vadd_cons, vadd_cons, vsub_cons,
          ih p q (by simpa using h1) (by simpa using h2)]
        congr 1
        ring

theorem vneg_vsub_norm (y : List Int) :
    ∀ p q, y.length = q.length → p.length = q.length →
      vadd (vneg p) (vsub y q) = vsub y (vadd p q) := by
  induction y with
  | nil =>
    intro p q h1 h2
    cases q with
    | nil =>
      cases p with
      | nil => rfl
      | cons b p => simp at h2
    | cons c q => simp at h1
  | cons a y ih =>
    intro p q h1 h2
    cases q with
    | nil => simp at h1
    | cons c q =>
      cases p with
      | nil => simp at h2
      | cons b p =>
        rw [vneg_cons, vsub_cons, vadd_cons, vadd_cons, vsub_cons,
          ih p q (by simpa using h1) (by simpa using h2)]
        congr 1
        ring

theorem dot_replicate_zero (n : Nat) : ∀ y, dot (List.replicate n 0) y = 0 := by
  induction n with
  | zero => intro y; simp [List.replicate, dot_nil_left]
  | succ n ih =>
    intro y
    cases y with
    | nil => rw [dot_nil_right]
    | cons z y => rw [List.replicate_succ, dot_cons, ih, zero_mul, zero_add]

theorem vadd_replicate_zero (n : Nat) :
    vadd (List.replicate n (0 : Int)) (List.replicate n 0) = List.replicate n 0 := by
  induction n with
  | zero => rfl
  | succ n ih => rw [List.replicate_succ, vadd_cons, ih, add_zero]

/- ------------------------------------------------------------------ -/
/- Beaver triples and the dealer (share_server.py).                   -/
/- ------------------------------------------------------------------ -/

/-- One party's half of a Beaver triple, as used inside a READ. -/
structure Triple where
  a : List Int
  b : List Int
  c : Int

/-- One dealer reply `(sid, dim, a_i, b_i, c_i)` (share_server.py OP_RESPONSE). -/
structure TripleShare where
  sid : Int
  dim : Nat
  a : List Int
  b : List Int
  c : Int

/-- Triple generation in `handle_one` (share_server.py lines 52-60):
`a0,a1,b0,b1 = rand_vec(dim)`, `a = a0+a1`, `b = b0+b1`, `c = dot(a,b)`,
`c0 = rand_elem()`, `c1 = c - c0`, `sid = random.getrandbits(63)`.
The first component is sent to the waiting connection (`peer`), the second to
the newly arrived one (`conn`). -/
def gen_triple (dim : Nat) (sa0 sa1 sb0 sb1 : Nat → Nat) (sc0 rsid : Nat) :
    TripleShare × TripleShare :=
  (⟨getrandbits63 rsid, dim, rand_vec dim sa0, rand_vec dim sb0, rand_elem sc0⟩,
   ⟨getrandbits63 rsid, dim, rand_vec dim sa1, rand_vec dim sb1,
    dot (vadd (rand_vec dim sa0) (rand_vec dim sa1))
        (vadd (rand_vec dim sb0) (rand_vec dim sb1)) - rand_elem sc0⟩)

/-- The critical section of `handle_one` (share_server.py lines 43-50): under
the mutex, pop a waiter for `dim` if present (the `waiting.pop(dim, None)` on
an emptied deque is the function-model's returning to `[]`), otherwise append
the connection.  Connections are identified by `Nat` ids. -/
def table_step (t : Nat → List Nat) (dim conn : Nat) :
    (Nat → List Nat) × Option (Nat × Nat) :=
  match t dim with
  | [] => (fun d => if d = dim then [conn] else t d, none)
  | peer :: rest => (fun d => if d = dim then rest else t d, some (peer, conn))

/-- `handle_one`'s guards before the critical section: a bad op byte or a zero
dimension closes the connection without touching the table. -/
def dealer_arrival (t : Nat → List Nat) (op dim conn : Nat) :
    (Nat → List Nat) × Option (Nat × Nat) :=
  if op ≠ 0x31 ∨ dim = 0 then (t, none) else table_step t dim conn

/-- The waiting table after a sequence of arrivals `(op, dim, conn)`. -/
def dealer_run : (Nat → List Nat) → List (Nat × Nat × Nat) → Nat → List Nat
  | t, [] => t
  | t, a :: rest => dealer_run (dealer_arrival t a.1 a.2.1 a.2.2).1 rest

def empty_table : Nat → List Nat := fun _ => []

/-- Dealer invariant: each dimension has at most one waiting connection. -/
def tableInv (t : Nat → List Nat) : Prop := ∀ d, (t d).length ≤ 1

/-- The pairing sequel of `handle_one` (share_server.py lines 52-74): the
waiter `w` is sent the first triple share, the arriving connection `c` the
second; the boolean records that each socket is closed afterwards. -/
def serve_pair (w c dim : Nat) (sa0 sa1 sb0 sb1 : Nat → Nat) (sc0 rsid : Nat) :
    List (Nat × TripleShare × Bool) :=
  [(w, (gen_triple dim sa0 sa1 sb0 sb1 sc0 rsid).1, true),
   (c, (gen_triple dim sa0 sa1 sb0 sb1 sc0 rsid).2, true)]

/- ------------------------------------------------------------------ -/
/- Du-Atallah cross-term (party_client.py).                           -/
/- ------------------------------------------------------------------ -/

/-- The `(u_part, v_part)` a party computes in `dta_cross`
(party_client.py lines 72-79): the X side sends `(x - a_i, -b_i)`, the Y side
`(-a_i, y - b_i)`. -/
def dta_parts (i_am_X_side : Bool) (my_input a_i b_i : List Int) :
    List Int × List Int :=
  cond i_am_X_side (vsub my_input a_i, vneg b_i) (vneg a_i, vsub my_input b_i)

/-- The arithmetic of `dta_cross` (party_client.py lines 83-89) once the
peer's `(u_part, v_part)` have been received: `u = u_part_me + u_part_pe`,
`v = v_part_me + v_part_pe`, and role A returns `u·b_i + a_i·v + c_i` while
role B additionally adds `u·v`. -/
def dta_cross (role : Role) (i_am_X_side : Bool) (my_input a_i b_i : List Int)
    (c_i : Int) (u_part_pe v_part_pe : List Int) : Int :=
  match role with
  | Role.A =>
      dot (vadd (dta_parts i_am_X_side my_input a_i b_i).1 u_part_pe) b_i +
        dot a_i (vadd (dta_parts i_am_X_side my_input a_i b_i).2 v_part_pe) + c_i
  | Role.B =>
      dot (vadd (dta_parts i_am_X_side my_input a_i b_i).1 u_part_pe) b_i +
        dot a_i (vadd (dta_parts i_am_X_side my_input a_i b_i).2 v_part_pe) +
        dot (vadd (dta_parts i_am_X_side my_input a_i b_i).1 u_part_pe)
          (vadd (dta_parts i_am_X_side my_input a_i b_i).2 v_part_pe) + c_i

/-- One full residual exchange of a cross-term, with each party receiving
exactly the parts the other sent.  Party A holds triple `tA`, party B holds
`tB`; `xIsA` says whether A plays the X side (tag 0x01 in `serve`) or B does
(tag 0x10); `x` is the X side's input vector, `y` the Y side's. -/
def dta_exchange (xIsA : Bool) (x y : List Int) (tA tB : Triple) : Int × Int :=
  (dta_cross Role.A xIsA (cond xIsA x y) tA.a tA.b tA.c
     (dta_parts (!xIsA) (cond xIsA y x) tB.a tB.b).1
     (dta_parts (!xIsA) (cond xIsA y x) tB.a tB.b).2,
   dta_cross Role.B (!xIsA) (cond xIsA y x) tB.a tB.b tB.c
     (dta_parts xIsA (cond xIsA x y) tA.a tA.b).1
     (dta_parts xIsA (cond xIsA x y) tA.a tA.b).2)

/-- The two parties' READ computation (party_client.py lines 140-158): for tag
0x01 party A plays the X side with `my_input = A_share` and B the Y side with
its `e_share`; for tag 0x10 the sides are swapped; each party returns
`dot(A_share, e_share) + z01 + z10`. -/
def readBoth (XA eA : List Int) (tA : Triple) (XB eB : List Int) (tB : Triple) :
    Int × Int :=
  (dot XA eA + (dta_exchange true XA eB tA tB).1 + (dta_exchange false XB eA tA tB).1,
   dot XB eB + (dta_exchange true XA eB tA tB).2 + (dta_exchange false XB eA tA tB).2)

/-- WRITE accumulation `for i in range(rows): A_share[i] += vec[i]`
(party_client.py line 136); the wire guarantees `len(vec) = dim = rows`. -/
def write_accum (share vec : List Int) : List Int := vadd share vec

/-- Party A's memory share after a sequence of coordinator WRITEs
`(idx, val, seed)`, starting from `A_share = [0]*D`; A receives each write's
first share `e`. -/
def write_fold_A (D : Nat) (writes : List (Nat × Int × (Nat → Nat))) : List Int :=
  writes.foldl
    (fun s w => write_accum s (make_standard_basis_share D w.1 w.2.1 w.2.2).1)
    (List.replicate D 0)

/-- Party B's memory share after the same WRITEs; B receives each `f`. -/
def write_fold_B (D : Nat) (writes : List (Nat × Int × (Nat → Nat))) : List Int :=
  writes.foldl
    (fun s w => write_accum s (make_standard_basis_share D w.1 w.2.1 w.2.2).2)
    (List.replicate D 0)

/- ------------------------------------------------------------------ -/
/- The fallible request-handling layer of `serve` (party_client.py).  -/
/- ------------------------------------------------------------------ -/

/-- The errors `serve`'s helpers can raise. -/
inductive PErr where
  | header_mismatch_u
  | header_mismatch_v
  | share_bad_op
  | share_dim_mismatch
deriving DecidableEq

/-- One residual frame as read off the wire by `recv_two_vecs`:
`[sid][tag][len u][u...][len v][v...]`; the length prefixes are the lengths
of the vectors that follow. -/
structure ResidualFrame where
  sid : Int
  tag : Nat
  u_part : List Int
  v_part : List Int

/-- Result of `recv_two_vecs`: whether the accepted socket was closed, and
either the two vectors or the raised error. -/
structure RecvResult where
  closed : Bool
  result : Except PErr (List Int × List Int)

/-- The header condition that makes `recv_two_vecs` raise: wrong sid, wrong
tag, or either vector length different from the expected dimension. -/
def headerMismatch (f : ResidualFrame) (expect_sid : Int)
    (expect_tag expect_dim : Nat) : Prop :=
  f.sid ≠ expect_sid ∨ f.tag ≠ expect_tag ∨
    f.u_part.length ≠ expect_dim ∨ f.v_part.length ≠ expect_dim

instance (f : ResidualFrame) (es : Int) (et ed : Nat) :
    Decidable (headerMismatch f es et ed) := by
  unfold headerMismatch; infer_instance

/-- `recv_two_vecs` (party_client.py lines 47-62): checks `sid`, `tag` and the
first length against expectation, then the second length; the socket is
closed in every branch (both on mismatch and after a successful read). -/
def recv_two_vecs (f : ResidualFrame) (expect_sid : Int)
    (expect_tag expect_dim : Nat) : RecvResult :=
  if f.sid ≠ expect_sid ∨ f.tag ≠ expect_tag ∨ f.u_part.length ≠ expect_dim then
    ⟨true, Except.error PErr.header_mismatch_u⟩
  else if f.v_part.length ≠ expect_dim then
    ⟨true, Except.error PErr.header_mismatch_v⟩
  else ⟨true, Except.ok (f.u_part, f.v_part)⟩

/-- The dealer's reply frame as read by `fetch_share`. -/
structure DealerReply where
  op : Nat
  rdim : Nat
  sid : Int
  a_i : List Int
  b_i : List Int
  c_i : Int

/-- `fetch_share` (party_client.py lines 92-106): raises on a bad op byte or
a dimension mismatch, otherwise returns `(sid, a_i, b_i, c_i)`. -/
def fetch_share (r : DealerReply) (dim : Nat) :
    Except PErr (Int × List Int × List Int × Int) :=
  if r.op ≠ 0x33 then Except.error PErr.share_bad_op
  else if r.rdim ≠ dim then Except.error PErr.share_dim_mismatch
  else Except.ok (r.sid, r.a_i, r.b_i, r.c_i)

/-- `dta_cross` including the receive step, which can fail on a header
mismatch; `dim = len(my_input)` as in the source. -/
def dta_cross_io (role : Role) (i_am_X_side : Bool) (my_input a_i b_i : List Int)
    (c_i : Int) (sid : Int) (tag : Nat) (f : ResidualFrame) : Except PErr Int :=
  match (recv_two_vecs f sid tag my_input.length).result with
  | Except.error e => Except.error e
  | Except.ok (u_pe, v_pe) =>
      Except.ok (dta_cross role i_am_X_side my_input a_i b_i c_i u_pe v_pe)

/-- Everything a READ consumes from the outside: the dealer's reply and the
two residual frames the peer sends (tags 0x01 and 0x10). -/
structure ReadEnv where
  reply : DealerReply
  frame01 : ResidualFrame
  frame10 : ResidualFrame

/-- The READ branch of `serve` (party_client.py lines 140-158):
fetch the triple share, run the 0x01 cross-term (`i_am_X_side = (role=="A")`,
input `A_share` for A and `e_share` for B), then the 0x10 cross-term with the
sides swapped, and return `dot(A_share, e_share) + z01 + z10`. -/
def handle_read (role : Role) (dim : Nat) (A_share e_share : List Int)
    (env : ReadEnv) : Except PErr Int :=
  match fetch_share env.reply dim with
  | Except.error e => Except.error e
  | Except.ok (sid, a_i, b_i, c_i) =>
    match dta_cross_io role (decide (role = Role.A))
        (if role = Role.A then A_share else e_share) a_i b_i c_i sid 0x01
        env.frame01 with
    | Except.error e => Except.error e
    | Except.ok z01 =>
      match dta_cross_io role (decide (role = Role.B))
          (if role = Role.B then A_share else e_share) a_i b_i c_i sid 0x10
          env.frame10 with
      | Except.error e => Except.error e
      | Except.ok z10 => Except.ok (dot A_share e_share + z01 + z10)

/-- One accepted user connection, as `serve` sees it.  The op byte of
`badOp` is one that is neither 0x40 nor 0x41; `eof` is an EOF mid-frame
(`recv_exact` raises ConnectionError). -/
inductive Request where
  | write (dim : Nat) (vec : List Int)
  | readSecure (dim : Nat) (vec : List Int) (env : ReadEnv)
  | badOp (op : Nat)
  | eof

/-- What a connection gets back: the two-byte `OK`, or the packed i64 word. -/
inductive Reply where
  | okBytes
  | shareWord (w : Int)
deriving DecidableEq

/-- One iteration of `serve`'s accept loop (party_client.py lines 127-160).
Returns the new `A_share`, the reply sent (`none` when the connection is
closed without one), and whether an exception escaped the handler: the loop
body is `try ... finally conn.close()` with no `except`, so such an
exception terminates `serve` itself. -/
def handle_conn (role : Role) (rows : Nat) (share : List Int) :
    Request → List Int × Option Reply × Bool
  | Request.write dim vec =>
      if dim ≠ rows then (share, none, true)
      else (write_accum share vec, some Reply.okBytes, false)
  | Request.readSecure dim vec env =>
      if dim ≠ rows then (share, none, true)
      else
        match handle_read role dim share vec env with
        | Except.error _ => (share, none, true)
        | Except.ok s =>
          match pack_i64 s with
          | none => (share, none, true)
          | some w => (share, some (Reply.shareWord w), false)
  | Request.badOp _ => (share, none, false)
  | Request.eof => (share, none, true)

/-- `serve`'s accept loop over a sequence of connections: an escaped
exception stops the loop, so later requests are never served (their replies
do not appear in the output list). -/
def serve_loop (role : Role) (rows : Nat) :
    List Int → List Request → List Int × List (Option Reply)
  | share, [] => (share, [])
  | share, r :: rs =>
    match handle_conn role rows share r with
    | (share1, rep, true) => (share1, [rep])
    | (share1, rep, false) =>
      match serve_loop role rows share1 rs with
      | (shf, reps) => (shf, rep :: reps)

/- ------------------------------------------------------------------ -/
/- Residual-exchange ordering (claim C4).                             -/
/- ------------------------------------------------------------------ -/

/-- A send or receive on the peer residual channel. -/
inductive PeerAction where
  | send
  | recv
deriving DecidableEq

/-- The order of peer I/O inside `dta_cross` (party_client.py lines 72-81):
the X side sends then receives, the Y side receives then sends. -/
def dta_order (i_am_X_side : Bool) : List PeerAction :=
  cond i_am_X_side [PeerAction.send, PeerAction.recv]
    [PeerAction.recv, PeerAction.send]

/-- Which side a role plays per tag in `serve` (party_client.py lines
147-154): `i_am_X_side = (role == "A")` for tag 0x01 and `(role == "B")`
for tag 0x10. -/
def serve_x_side (role : Role) (tag : Nat) : Bool :=
  if tag = 0x01 then decide (role = Role.A) else decide (role = Role.B)

/-- The peer I/O order a given role performs in the cross-term of a given tag. -/
def serve_cross_order (role : Role) (tag : Nat) : List PeerAction :=
  dta_order (serve_x_side role tag)

/- ------------------------------------------------------------------ -/
/- Core correctness of the cross-term algebra.                        -/
/- ------------------------------------------------------------------ -/

/-- Beaver-style core identity: with public `u = x - (aP+aQ)` and
`v = y - (bP+bQ)`, the two output shares (the `u·v` term going to exactly
one of them) sum to `dot x y`, given the triple invariant. -/
theorem cross_core (D : Nat) (x y aP bP aQ bQ : List Int) (cP cQ : Int)
    (hx : x.length = D) (hy : y.length = D)
    (hap : aP.length = D) (hbp : bP.length = D)
    (haq : aQ.length = D) (hbq : bQ.length = D)
    (hTrip : dot (vadd aP aQ) (vadd bP bQ) = cP + cQ) :
    (dot (vsub x (vadd aP aQ)) bP + dot aP (vsub y (vadd bP bQ)) + cP) +
      (dot (vsub x (vadd aP aQ)) bQ + dot aQ (vsub y (vadd bP bQ)) +
        dot (vsub x (vadd aP aQ)) (vsub y (vadd bP bQ)) + cQ) = dot x y := by
  have hA : (vadd aP aQ).length = D := by
    rw [vadd_length, hap, haq, Nat.min_self]
  have hB : (vadd bP bQ).length = D := by
    rw [vadd_length, hbp, hbq, Nat.min_self]
  have h1 : dot (vsub x (vadd aP aQ)) bP
      = dot x bP - dot (vadd aP aQ) bP :=
    dot_vsub_left x (vadd aP aQ) bP (by rw [hx, hA])
  have h2 : dot (vsub x (vadd aP aQ)) bQ
      = dot x bQ - dot (vadd aP aQ) bQ :=
    dot_vsub_left x (vadd aP aQ) bQ (by rw [hx, hA])
  have h3 : dot aP (vsub y (vadd bP bQ))
      = dot aP y - dot aP (vadd bP bQ) :=
    dot_vsub_right aP y (vadd bP bQ) (by rw [hy, hB])
  have h4 : dot aQ (vsub y (vadd bP bQ))
      = dot aQ y - dot aQ (vadd bP bQ) :=
    dot_vsub_right aQ y (vadd bP bQ) (by rw [hy, hB])
  have h5 : dot (vsub x (vadd aP aQ)) (vsub y (vadd bP bQ))
      = (dot x y - dot x (vadd bP bQ))
        - (dot (vadd aP aQ) y - dot (vadd aP aQ) (vadd bP bQ)) := by
    rw [dot_vsub_left x (vadd aP aQ) _ (by rw [hx, hA]),
      dot_vsub_right x y (vadd bP bQ) (by rw [hy, hB]),
      dot_vsub_right (vadd aP aQ) y (vadd bP bQ) (by rw [hy, hB])]
  have h6 : dot x (vadd bP bQ) = dot x bP + dot x bQ :=
    dot_vadd_right x bP bQ (by rw [hbp, hbq])
  have h7 : dot (vadd aP aQ) (vadd bP bQ)
      = dot (vadd aP aQ) bP + dot (vadd aP aQ) bQ :=
    dot_vadd_right (vadd aP aQ) bP bQ (by rw [hbp, hbq])
  have h8 : dot (vadd aP aQ) y = dot aP y + dot aQ y :=
    dot_vadd_left aP aQ y (by rw [hap, haq])
  have h9 : dot aP (vadd bP bQ) + dot aQ (vadd bP bQ)
      = dot (vadd aP aQ) (vadd bP bQ) :=
    (dot_vadd_left aP aQ (vadd bP bQ) (by rw [hap, haq])).symm
  rw [h1, h2, h3, h4, h5]
  linarith [hTrip, h6, h7, h8, h9]

/-- Sum of the two outputs of one full residual exchange: for either side
assignment, the role-A and role-B outputs of `dta_exchange` sum exactly to
`dot x y` of the X side's and Y side's inputs. -/
theorem dta_exchange_sum (xIsA : Bool) (x y : List Int) (tA tB : Triple)
    (D : Nat) (hx : x.length = D) (hy : y.length = D)
    (haA : tA.a.length = D) (hbA : tA.b.length = D)
    (haB : tB.a.length = D) (hbB : tB.b.length = D)
    (hTrip : dot (vadd tA.a tB.a) (vadd tA.b tB.b) = tA.c + tB.c) :
    (dta_exchange xIsA x y tA tB).1 + (dta_exchange xIsA x y tA tB).2
      = dot x y := by
  cases xIsA with
  | true =>
    simp only [dta_exchange, dta_cross, dta_parts, Bool.not_true, cond_true,
      cond_false]
    have hu1 : vadd (vsub x tA.a) (vneg tB.a) = vsub x (vadd tA.a tB.a) :=
      vsub_vneg_norm x tA.a tB.a (by rw [hx, haA]) (by rw [haA, haB])
    have hu2 : vadd (vneg tB.a) (vsub x tA.a) = vsub x (vadd tA.a tB.a) := by
      rw [vadd_comm, hu1]
    have hv1 : vadd (vneg tA.b) (vsub y tB.b) = vsub y (vadd tA.b tB.b) :=
      vneg_vsub_norm y tA.b tB.b (by rw [hy, hbB]) (by rw [hbA, hbB])
    have hv2 : vadd (vsub y tB.b) (vneg tA.b) = vsub y (vadd tA.b tB.b) := by
      rw [vadd_comm, hv1]
    rw [hu1, hu2, hv1, hv2]
    exact cross_core D x y tA.a tA.b tB.a tB.b tA.c tB.c hx hy haA hbA haB
      hbB hTrip
  | false =>
    simp only [dta_exchange, dta_cross, dta_parts, Bool.not_false, cond_true,
      cond_false]
    have hu1 : vadd (vneg tA.a) (vsub x tB.a) = vsub x (vadd tA.a tB.a) :=
      vneg_vsub_norm x tA.a tB.a (by rw [hx, haB]) (by rw [haA, haB])
    have hu2 : vadd (vsub x tB.a) (vneg tA.a) = vsub x (vadd tA.a tB.a) := by
      rw [vadd_comm, hu1]
    have hv1 : vadd (vsub y tA.b) (vneg tB.b) = vsub y (vadd tA.b tB.b) :=
      vsub_vneg_norm y tA.b tB.b (by rw [hy, hbA]) (by rw [hbA, hbB])
    have hv2 : vadd (vneg tB.b) (vsub y tA.b) = vsub y (vadd tA.b tB.b) := by
      rw [vadd_comm, hv1]
    rw [hu1, hu2, hv1, hv2]
    have core := cross_core D x y tA.a tA.b tB.a tB.b tA.c tB.c hx hy haA hbA
      haB hbB hTrip
    linarith [core]

/-- The two READ replies sum exactly to the inner product of the
reconstructed memory vector and the reconstructed request vector. -/
theorem read_sum_correct (D : Nat) (XA eA XB eB : List Int) (tA tB : Triple)
    (hXA : XA.length = D) (heA : eA.length = D)
    (hXB : XB.length = D) (heB : eB.length = D)
    (haA : tA.a.length = D) (hbA : tA.b.length = D)
    (haB : tB.a.length = D) (hbB : tB.b.length = D)
    (hTrip : dot (vadd tA.a tB.a) (vadd tA.b tB.b) = tA.c + tB.c) :
    (readBoth XA eA tA XB eB tB).1 + (readBoth XA eA tA XB eB tB).2
      = dot (vadd XA XB) (vadd eA eB) := by
  have h01 := dta_exchange_sum true XA eB tA tB D hXA heB haA hbA haB hbB hTrip
  have h10 := dta_exchange_sum false XB eA tA tB D hXB heA haA hbA haB hbB hTrip
  have hb1 : dot (vadd XA XB) (vadd eA eB)
      = dot XA (vadd eA eB) + dot XB (vadd eA eB) :=
    dot_vadd_left XA XB (vadd eA eB) (by rw [hXA, hXB])
  have hb2 : dot XA (vadd eA eB) = dot XA eA + dot XA eB :=
    dot_vadd_right XA eA eB (by rw [heA, heB])
  have hb3 : dot XB (vadd eA eB) = dot XB eA + dot XB eB :=
    dot_vadd_right XB eA eB (by rw [heA, heB])
  simp only [readBoth]
  linarith [h01, h10, hb1, hb2, hb3]

/- ------------------------------------------------------------------ -/
/- WRITE accumulation and basis-vector lemmas.                        -/
/- ------------------------------------------------------------------ -/

theorem make_fst_length (dim idx : Nat) (val : Int) (seed : Nat → Nat) :
    ((make_standard_basis_share dim idx val seed).1).length = dim := by
  simp [make_standard_basis_share, vsub_length, basis_vec_length,
    rand_vec_length]

theorem make_snd_length (dim idx : Nat) (val : Int) (seed : Nat → Nat) :
    ((make_standard_basis_share dim idx val seed).2).length = dim := by
  simp [make_standard_basis_share, rand_vec_length]

theorem write_fold_aux_length (D : Nat)
    (step : List Int → Nat × Int × (Nat → Nat) → List Int)
    (hstep : ∀ s w, s.length = D → (step s w).length = D) :
    ∀ (l : List (Nat × Int × (Nat → Nat))) (acc : List Int), acc.length = D →
      (l.foldl step acc).length = D := by
  intro l
  induction l with
  | nil => intro acc h; simpa using h
  | cons w rest ih =>
    intro acc h
    rw [List.foldl_cons]
    exact ih (step acc w) (hstep acc w h)

theorem write_fold_A_length (D : Nat) (writes : List (Nat × Int × (Nat → Nat))) :
    (write_fold_A D writes).length = D := by
  refine write_fold_aux_length D _ ?_ writes (List.replicate D 0)
    (by simp)
  intro s w h
  rw [write_accum, vadd_length, h, make_fst_length, Nat.min_self]

theorem write_fold_B_length (D : Nat) (writes : List (Nat × Int × (Nat → Nat))) :
    (write_fold_B D writes).length = D := by
  refine write_fold_aux_length D _ ?_ writes (List.replicate D 0)
    (by simp)
  intro s w h
  rw [write_accum, vadd_length, h, make_snd_length, Nat.min_self]

/-- The sum of one write's two shares is the sparse plaintext vector. -/
theorem make_shares_sum (dim idx : Nat) (val : Int) (seed : Nat → Nat) :
    vadd (make_standard_basis_share dim idx val seed).1
        (make_standard_basis_share dim idx val seed).2
      = basis_vec dim idx val := by
  exact vadd_vsub_cancel (basis_vec dim idx val) (rand_vec dim seed)
    (by rw [basis_vec_length, rand_vec_length])

/-- Pointwise sum of the two parties' accumulated shares equals the fold of
the plaintext sparse vectors. -/
theorem write_fold_sum_aux (D : Nat) :
    ∀ (writes : List (Nat × Int × (Nat → Nat))) (sA sB : List Int),
      vadd (writes.foldl
          (fun s w => write_accum s (make_standard_basis_share D w.1 w.2.1 w.2.2).1) sA)
        (writes.foldl
          (fun s w => write_accum s (make_standard_basis_share D w.1 w.2.1 w.2.2).2) sB)
      = writes.foldl (fun s w => vadd s (basis_vec D w.1 w.2.1)) (vadd sA sB) := by
  intro writes
  induction writes with
  | nil => intro sA sB; rfl
  | cons w rest ih =>
    intro sA sB
    simp only [List.foldl_cons]
    rw [ih, write_accum, write_accum, vadd_vadd_swap, make_shares_sum]

theorem write_fold_sum (D : Nat) (writes : List (Nat × Int × (Nat → Nat))) :
    vadd (write_fold_A D writes) (write_fold_B D writes)
      = writes.foldl (fun s w => vadd s (basis_vec D w.1 w.2.1))
          (List.replicate D 0) := by
  rw [write_fold_A, write_fold_B, write_fold_sum_aux, vadd_replicate_zero]

/-- Dot of two range-maps is the sum of the pointwise products. -/
theorem dot_map_range (f g : Nat → Int) :
    ∀ D, dot ((List.range D).map f) ((List.range D).map g)
      = ((List.range D).map (fun i => f i * g i)).sum := by
  intro D
  induction D with
  | zero => rfl
  | succ D ih =>
    have hlen : ((List.range D).map f).length = ((List.range D).map g).length := by
      simp
    rw [List.range_succ, List.map_append, List.map_append, List.map_append]
    simp only [List.map_cons, List.map_nil]
    rw [List.sum_append, ← ih]
    simp only [dot]
    rw [List.zipWith_append _ _ _ _ _ hlen, List.sum_append]
    simp

/-- Summing a delta function over `range D`. -/
theorem sum_ite_delta (v : Int) :
    ∀ (D j : Nat),
      (((List.range D).map (fun i => if i = j then v else 0)).sum)
        = if j < D then v else 0 := by
  intro D
  induction D with
  | zero => intro j; simp
  | succ D ih =>
    intro j
    rw [List.range_succ, List.map_append, List.sum_append]
    rcases Nat.lt_trichotomy j D with h | h | h
    · have h1 : j < D + 1 := Nat.lt_succ_of_lt h
      have h2 : ¬ (D = j) := fun hc => absurd hc.symm (Nat.ne_of_lt h)
      simp [ih, h, h1, h2]
    · subst h
      have h2 : ¬ (j < j) := Nat.lt_irrefl j
      simp [ih, h2]
    · have h1 : ¬ (j < D) := by omega
      have h2 : ¬ (j < D + 1) := by omega
      have h3 : ¬ (D = j) := by omega
      simp [ih, h1, h2, h3]

/-- Inner product of two standard-basis-style vectors. -/
theorem dot_basis_basis (D i j : Nat) (v w : Int) (hi : i < D) :
    dot (basis_vec D i v) (basis_vec D j w)
      = if i = j then v * w else 0 := by
  rw [basis_vec, basis_vec, dot_map_range]
  by_cases h : i = j
  · subst h
    have hfun : (fun t => (if t = i then v else 0) * (if t = i then w else 0))
        = fun t => if t = i then v * w else 0 := by
      funext t
      by_cases ht : t = i <;> simp [ht]
    rw [hfun, sum_ite_delta, if_pos hi, if_pos rfl]
  · have hfun : (fun t => (if t = i then v else 0) * (if t = j then w else 0))
        = fun t => (0 : Int) := by
      funext t
      by_cases ht : t = i
      · subst ht
        rw [if_neg h, mul_zero]
      · rw [if_neg ht, zero_mul]
    rw [hfun, if_neg h]
    simp

/-- Dot of the accumulated plaintext fold against the basis selector. -/
theorem dot_fold_basis (D j : Nat) :
    ∀ (writes : List (Nat × Int × (Nat → Nat))) (acc : List Int),
      acc.length = D → (∀ w ∈ writes, w.1 < D) →
      dot (writes.foldl (fun s w => vadd s (basis_vec D w.1 w.2.1)) acc)
          (basis_vec D j 1)
        = dot acc (basis_vec D j 1)
          + (writes.map (fun w => if w.1 = j then w.2.1 else 0)).sum := by
  intro writes
  induction writes with
  | nil => intro acc _ _; simp
  | cons w rest ih =>
    intro acc hacc hw
    rw [List.foldl_cons, List.map_cons, List.sum_cons,
      ih (vadd acc (basis_vec D w.1 w.2.1))
        (by rw [vadd_length, hacc, basis_vec_length, Nat.min_self])
        (by intro u hu; exact hw u (List.mem_cons_of_mem w hu)),
      dot_vadd_left acc (basis_vec D w.1 w.2.1) (basis_vec D j 1)
        (by rw [hacc, basis_vec_length]),
      dot_basis_basis D w.1 j w.2.1 1 (hw w (List.mem_cons_self w rest))]
    by_cases h : w.1 = j
    · rw [if_pos h, if_pos h, mul_one]; ring
    · rw [if_neg h, if_neg h]; ring

/-- Replace the ite-sum by the filtered sum over the matching writes. -/
theorem sum_ite_filter (j : Nat) :
    ∀ (l : List (Nat × Int × (Nat → Nat))),
      (l.map (fun w => if w.1 = j then w.2.1 else 0)).sum
        = ((l.filter (fun w => w.1 == j)).map (fun w => w.2.1)).sum := by
  intro l
  induction l with
  | nil => rfl
  | cons w rest ih =>
    rw [List.map_cons, List.sum_cons, List.filter_cons]
    by_cases h : w.1 = j
    · have hb : (w.1 == j) = true := by simp [h]
      rw [hb, if_pos rfl, if_pos h, List.map_cons, List.sum_cons, ih]
    · have hb : (w.1 == j) = false := by simp [h]
      rw [hb, if_neg Bool.false_ne_true, if_neg h, ih, zero_add]

/- ================================================================== -/
/- Claim theorems.                                                    -/
/- ================================================================== -/

/-- C1: for every dimension `D ≥ 1` and every sequence of WRITEs
`(i_k, v_k)` with `i_k < D`, split by the coordinator into two additive
share vectors and accumulated by both parties, a READ at `j < D` executed
with dealer triple shares satisfying the triple invariant yields two party
shares whose sum is `Σ_{i_k = j} v_k` modulo `2^64` (the Python arithmetic
is in fact exact, which implies the wrap-around statement). -/
theorem c1_write_then_read_returns_sum (D : Nat) (_hD : 1 ≤ D)
    (writes : List (Nat × Int × (Nat → Nat))) (hw : ∀ w ∈ writes, w.1 < D)
    (j : Nat) (_hj : j < D) (rs : Nat → Nat) (tA tB : Triple)
    (haA : tA.a.length = D) (hbA : tA.b.length = D)
    (haB : tB.a.length = D) (hbB : tB.b.length = D)
    (hTrip : dot (vadd tA.a tB.a) (vadd tA.b tB.b) = tA.c + tB.c) :
    Int.ModEq (2 ^ 64)
      ((readBoth (write_fold_A D writes) (make_standard_basis_share D j 1 rs).1 tA
          (write_fold_B D writes) (make_standard_basis_share D j 1 rs).2 tB).1
        + (readBoth (write_fold_A D writes) (make_standard_basis_share D j 1 rs).1 tA
          (write_fold_B D writes) (make_standard_basis_share D j 1 rs).2 tB).2)
      (((writes.filter (fun w => w.1 == j)).map (fun w => w.2.1)).sum) := by
  have h := read_sum_correct D (write_fold_A D writes)
    (make_standard_basis_share D j 1 rs).1 (write_fold_B D writes)
    (make_standard_basis_share D j 1 rs).2 tA tB
    (write_fold_A_length D writes) (make_fst_length D j 1 rs)
    (write_fold_B_length D writes) (make_snd_length D j 1 rs)
    haA hbA haB hbB hTrip
  have hfinal : (readBoth (write_fold_A D writes)
        (make_standard_basis_share D j 1 rs).1 tA (write_fold_B D writes)
        (make_standard_basis_share D j 1 rs).2 tB).1
      + (readBoth (write_fold_A D writes)
        (make_standard_basis_share D j 1 rs).1 tA (write_fold_B D writes)
        (make_standard_basis_share D j 1 rs).2 tB).2
      = ((writes.filter (fun w => w.1 == j)).map (fun w => w.2.1)).sum := by
    rw [h, make_shares_sum, write_fold_sum,
      dot_fold_basis D j writes (List.replicate D 0) (by simp) hw,
      dot_replicate_zero, zero_add, sum_ite_filter]
  rw [hfinal]

/-- Witness for C1: one WRITE of value 5 at index 0 in dimension 1, then a
READ at index 0, with concrete entropy and a concrete valid triple. -/
theorem c1_witness :
    Int.ModEq (2 ^ 64)
      ((readBoth (write_fold_A 1 [(0, 5, fun _ => 0)])
          (make_standard_basis_share 1 0 1 (fun _ => 0)).1 ⟨[1], [1], 1⟩
          (write_fold_B 1 [(0, 5, fun _ => 0)])
          (make_standard_basis_share 1 0 1 (fun _ => 0)).2 ⟨[1], [1], 3⟩).1
        + (readBoth (write_fold_A 1 [(0, 5, fun _ => 0)])
          (make_standard_basis_share 1 0 1 (fun _ => 0)).1 ⟨[1], [1], 1⟩
          (write_fold_B 1 [(0, 5, fun _ => 0)])
          (make_standard_basis_share 1 0 1 (fun _ => 0)).2 ⟨[1], [1], 3⟩).2)
      ((((([(0, 5, fun _ => 0)] : List (Nat × Int × (Nat → Nat)))).filter
          (fun w => w.1 == 0)).map (fun w => w.2.1)).sum) :=
  c1_write_then_read_returns_sum 1 (by decide) [(0, 5, fun _ => 0)]
    (by
      intro w hw
      rw [List.mem_singleton] at hw
      subst hw
      decide)
    0 (by decide) (fun _ => 0) ⟨[1], [1], 1⟩ ⟨[1], [1], 3⟩
    rfl rfl rfl rfl (by decide)

/-- C2: for any equal-dimension integer vectors `x`, `y` and any triple
share pair satisfying the triple invariant, the two outputs of the
Du-Atallah cross-term computation (for either side assignment, i.e. both
residual tags) sum to `dot x y` modulo `2^64`. -/
theorem c2_cross_term_sum (xIsA : Bool) (x y : List Int) (tA tB : Triple)
    (D : Nat) (hx : x.length = D) (hy : y.length = D)
    (haA : tA.a.length = D) (hbA : tA.b.length = D)
    (haB : tB.a.length = D) (hbB : tB.b.length = D)
    (hTrip : dot (vadd tA.a tB.a) (vadd tA.b tB.b) = tA.c + tB.c) :
    Int.ModEq (2 ^ 64)
      ((dta_exchange xIsA x y tA tB).1 + (dta_exchange xIsA x y tA tB).2)
      (dot x y) := by
  rw [dta_exchange_sum xIsA x y tA tB D hx hy haA hbA haB hbB hTrip]

/-- Witness for C2: concrete one-dimensional exchange. -/
theorem c2_witness :
    Int.ModEq (2 ^ 64)
      ((dta_exchange true [2] [3] ⟨[1], [1], 1⟩ ⟨[1], [1], 3⟩).1
        + (dta_exchange true [2] [3] ⟨[1], [1], 1⟩ ⟨[1], [1], 3⟩).2)
      (dot [2] [3]) :=
  c2_cross_term_sum true [2] [3] ⟨[1], [1], 1⟩ ⟨[1], [1], 3⟩ 1
    rfl rfl rfl rfl rfl rfl (by decide)

/-- C3: the two triple shares the dealer generates for one pairing — the
first sent to the waiting connection, the second to the newly arrived one —
carry the same non-negative 63-bit `sid` and the same `dim`, and satisfy
`dot(a_0+a_1, b_0+b_1) = c_0 + c_1` exactly. -/
theorem c3_dealer_triple (dim : Nat) (_hdim : 1 ≤ dim)
    (sa0 sa1 sb0 sb1 : Nat → Nat) (sc0 rsid : Nat) :
    (gen_triple dim sa0 sa1 sb0 sb1 sc0 rsid).1.sid
        = (gen_triple dim sa0 sa1 sb0 sb1 sc0 rsid).2.sid ∧
      0 ≤ (gen_triple dim sa0 sa1 sb0 sb1 sc0 rsid).1.sid ∧
      (gen_triple dim sa0 sa1 sb0 sb1 sc0 rsid).1.sid < 2 ^ 63 ∧
      (gen_triple dim sa0 sa1 sb0 sb1 sc0 rsid).1.dim = dim ∧
      (gen_triple dim sa0 sa1 sb0 sb1 sc0 rsid).2.dim = dim ∧
      dot (vadd (gen_triple dim sa0 sa1 sb0 sb1 sc0 rsid).1.a
            (gen_triple dim sa0 sa1 sb0 sb1 sc0 rsid).2.a)
          (vadd (gen_triple dim sa0 sa1 sb0 sb1 sc0 rsid).1.b
            (gen_triple dim sa0 sa1 sb0 sb1 sc0 rsid).2.b)
        = (gen_triple dim sa0 sa1 sb0 sb1 sc0 rsid).1.c
          + (gen_triple dim sa0 sa1 sb0 sb1 sc0 rsid).2.c := by
  refine ⟨rfl, ?_, ?_, rfl, rfl, ?_⟩
  · simp only [gen_triple, getrandbits63]
    exact Int.ofNat_nonneg _
  · simp only [gen_triple, getrandbits63]
    exact_mod_cast Nat.mod_lt rsid (by norm_num)
  · simp only [gen_triple]
    ring

/-- Witness for C3 at dimension 1 with concrete entropy. -/
theorem c3_witness :
    (gen_triple 1 (fun _ => 0) (fun _ => 0) (fun _ => 0) (fun _ => 0) 0 0).1.sid
        = (gen_triple 1 (fun _ => 0) (fun _ => 0) (fun _ => 0) (fun _ => 0) 0 0).2.sid ∧
      0 ≤ (gen_triple 1 (fun _ => 0) (fun _ => 0) (fun _ => 0) (fun _ => 0) 0 0).1.sid ∧
      (gen_triple 1 (fun _ => 0) (fun _ => 0) (fun _ => 0) (fun _ => 0) 0 0).1.sid < 2 ^ 63 ∧
      (gen_triple 1 (fun _ => 0) (fun _ => 0) (fun _ => 0) (fun _ => 0) 0 0).1.dim = 1 ∧
      (gen_triple 1 (fun _ => 0) (fun _ => 0) (fun _ => 0) (fun _ => 0) 0 0).2.dim = 1 ∧
      dot (vadd (gen_triple 1 (fun _ => 0) (fun _ => 0) (fun _ => 0) (fun _ => 0) 0 0).1.a
            (gen_triple 1 (fun _ => 0) (fun _ => 0) (fun _ => 0) (fun _ => 0) 0 0).2.a)
          (vadd (gen_triple 1 (fun _ => 0) (fun _ => 0) (fun _ => 0) (fun _ => 0) 0 0).1.b
            (gen_triple 1 (fun _ => 0) (fun _ => 0) (fun _ => 0) (fun _ => 0) 0 0).2.b)
        = (gen_triple 1 (fun _ => 0) (fun _ => 0) (fun _ => 0) (fun _ => 0) 0 0).1.c
          + (gen_triple 1 (fun _ => 0) (fun _ => 0) (fun _ => 0) (fun _ => 0) 0 0).2.c :=
  c3_dealer_triple 1 (by decide) (fun _ => 0) (fun _ => 0) (fun _ => 0)
    (fun _ => 0) 0 0

/-- C4 counterexample: in the cross-term tagged 0x10, party A does NOT send
before receiving (and party B does not receive before sending): `serve`
passes `i_am_X_side = (role == "B")` for tag 0x10, so A is the Y side and
receives first. -/
theorem c4_counterexample :
    ¬ (serve_cross_order Role.A 0x10 = [PeerAction.send, PeerAction.recv] ∧
       serve_cross_order Role.B 0x10 = [PeerAction.recv, PeerAction.send]) := by
  decide

/-- C4 amended: in every residual exchange the X side sends before
receiving and the Y side receives before sending; for tag 0x01 the X side is
party A (A sends first, B receives first), for tag 0x10 the X side is party
B (B sends first, A receives first). -/
theorem c4_amended_xside_order :
    serve_cross_order Role.A 0x01 = [PeerAction.send, PeerAction.recv] ∧
    serve_cross_order Role.B 0x01 = [PeerAction.recv, PeerAction.send] ∧
    serve_cross_order Role.B 0x10 = [PeerAction.send, PeerAction.recv] ∧
    serve_cross_order Role.A 0x10 = [PeerAction.recv, PeerAction.send] := by
  decide

/-- C9: the second share `f` produced by `make_standard_basis_share` (the
vector sent to the second party) is independent of the value: under the same
random choices, any two values yield the same `f`. -/
theorem c9_f_independent_of_val (dim idx : Nat) (val val' : Int)
    (seed : Nat → Nat) (_hdim : 1 ≤ dim) (_hidx : idx < dim) :
    (make_standard_basis_share dim idx val seed).2
      = (make_standard_basis_share dim idx val' seed).2 := rfl

/-- Witness for C9: values 5 and 9 at index 1 of dimension 2. -/
theorem c9_witness :
    (make_standard_basis_share 2 1 5 (fun _ => 0)).2
      = (make_standard_basis_share 2 1 9 (fun _ => 0)).2 :=
  c9_f_independent_of_val 2 1 5 9 (fun _ => 0) (by decide) (by decide)

/-- C10: a READ never mutates the party's memory share, whether it completes
or aborts at any point (dealer fetch, residual exchange, packing the reply);
bad-op and EOF connections also leave it unchanged — only WRITE requests
modify `A_share`. -/
theorem c10_read_preserves_share (role : Role) (rows : Nat) (share : List Int)
    (dim : Nat) (vec : List Int) (env : ReadEnv) (b : Nat) :
    (handle_conn role rows share (Request.readSecure dim vec env)).1 = share ∧
    (handle_conn role rows share (Request.badOp b)).1 = share ∧
    (handle_conn role rows share Request.eof).1 = share := by
  refine ⟨?_, rfl, rfl⟩
  simp only [handle_conn]
  split
  · rfl
  · split
    · rfl
    · split <;> rfl

/-- C5 counterexample: a reply value just outside the i64 range does not
"silently wrap modulo 2^64": `pack_i64` fails (Python raises
`struct.error`) instead of producing wrapped bytes. -/
theorem c5_counterexample :
    pack_i64 (2 ^ 63) = none ∧ pack_i64 (-(2 ^ 63) - 1) = none := by
  norm_num [pack_i64, i64_min, i64_max]

/-- C5 amended: the Python arithmetic itself is exact (unbounded) integer
arithmetic; the i64 constraint is enforced only by the wire codec, which
fails — rather than wraps — on any value outside `[-2^63, 2^63-1]`, and
transmits in-range values exactly (pack/unpack round-trip). -/
theorem c5_amended_pack_exact (x : Int) :
    (pack_i64 x = none ↔ x < i64_min ∨ i64_max < x) ∧
    (∀ w, pack_i64 x = some w → unpack_i64 w = x) := by
  constructor
  · unfold pack_i64
    by_cases h : i64_min ≤ x ∧ x ≤ i64_max
    · rw [if_pos h]
      unfold i64_min i64_max at *
      constructor
      · intro hc
        exact absurd hc (by simp)
      · intro hc
        omega
    · rw [if_neg h]
      unfold i64_min i64_max at *
      constructor
      · intro _
        omega
      · intro _
        rfl
  · intro w hw
    unfold pack_i64 at hw
    by_cases h : i64_min ≤ x ∧ x ≤ i64_max
    · rw [if_pos h] at hw
      have hw' : x % 2 ^ 64 = w := by
        injection hw
      unfold i64_min i64_max at h
      unfold unpack_i64
      split
      · omega
      · omega
    · rw [if_neg h] at hw
      exact absurd hw (by simp)

/-- Witness for C5 amended: 5 packs and unpacks back to 5. -/
theorem c5_witness : unpack_i64 5 = 5 :=
  (c5_amended_pack_exact 5).2 5 (by decide)

/-- C6 counterexample: a WRITE whose dimension differs from `rows` is not
fatal "only for that one connection": the `RuntimeError` escapes `serve`'s
`try/finally` (there is no `except`), terminating the accept loop, so a
subsequent well-formed WRITE — which on its own would succeed, first
conjunct — is never served (the run's reply list ends at the failed
connection). -/
theorem c6_counterexample :
    handle_conn Role.A 1 [0] (Request.write 1 [7])
        = ([7], some Reply.okBytes, false) ∧
    (serve_loop Role.A 1 [0] [Request.write 2 [5, 6], Request.write 1 [7]]).2
        = [none] := by
  constructor
  · decide
  · decide

/-- C6 amended: only a bad op byte is fatal for just that connection (closed
without a reply, the loop then proceeding exactly as without it); a request
dimension different from `rows`, or EOF mid-frame, raises an exception that
terminates the party's serve loop, so subsequent requests are not served. -/
theorem c6_amended_bad_op_only (role : Role) (rows : Nat) (share : List Int)
    (rs : List Request) (dim : Nat) (vec : List Int) (b : Nat)
    (hdim : dim ≠ rows) :
    serve_loop role rows share (Request.badOp b :: rs)
        = ((serve_loop role rows share rs).1,
          none :: (serve_loop role rows share rs).2) ∧
    serve_loop role rows share (Request.write dim vec :: rs) = (share, [none]) ∧
    serve_loop role rows share (Request.eof :: rs) = (share, [none]) := by
  refine ⟨?_, ?_, ?_⟩
  · simp only [serve_loop, handle_conn]
  · simp only [serve_loop, handle_conn]
    rw [if_pos hdim]
  · simp only [serve_loop, handle_conn]

/-- Witness for C6 amended at a concrete party state and request list. -/
theorem c6_witness :
    serve_loop Role.A 1 [0] (Request.badOp 0x77 :: [Request.write 1 [7]])
        = ((serve_loop Role.A 1 [0] [Request.write 1 [7]]).1,
          none :: (serve_loop Role.A 1 [0] [Request.write 1 [7]]).2) ∧
    serve_loop Role.A 1 [0] (Request.write 2 [5, 6] :: [Request.write 1 [7]])
        = ([0], [none]) ∧
    serve_loop Role.A 1 [0] (Request.eof :: [Request.write 1 [7]])
        = ([0], [none]) :=
  c6_amended_bad_op_only Role.A 1 [0] [Request.write 1 [7]] 2 [5, 6] 0x77
    (by decide)

/- Dealer invariant helper lemmas for C7. -/

theorem table_step_inv (t : Nat → List Nat) (dim conn : Nat) (h : tableInv t) :
    tableInv (table_step t dim conn).1 := by
  intro d
  unfold table_step
  cases hc : t dim with
  | nil =>
    dsimp only
    by_cases hd : d = dim
    · rw [if_pos hd]
      simp
    · rw [if_neg hd]
      exact h d
  | cons peer rest =>
    dsimp only
    by_cases hd : d = dim
    · rw [if_pos hd]
      have hlen := h dim
      rw [hc] at hlen
      simp only [List.length_cons] at hlen
      omega
    · rw [if_neg hd]
      exact h d

theorem dealer_arrival_inv (t : Nat → List Nat) (op dim conn : Nat)
    (h : tableInv t) : tableInv (dealer_arrival t op dim conn).1 := by
  unfold dealer_arrival
  split
  · exact h
  · exact table_step_inv t dim conn h

theorem dealer_run_inv (arrs : List (Nat × Nat × Nat)) :
    ∀ t, tableInv t → tableInv (dealer_run t arrs) := by
  induction arrs with
  | nil => intro t h; exact h
  | cons a rest ih =>
    intro t h
    exact ih _ (dealer_arrival_inv t a.1 a.2.1 a.2.2 h)

/-- C7: starting from the empty table, every sequence of dealer arrivals
leaves at most one waiting connection per dimension; and when a (well-formed)
request arrives for a dimension that already has a waiter, the waiter is
removed in the critical section — that dimension's entry returning to
empty — the pairing is emitted, and in the sequel each of the two
connections is sent exactly one of the two triple shares and closed. -/
theorem c7_dealer_pairing (arrs : List (Nat × Nat × Nat))
    (t : Nat → List Nat) (dim conn w : Nat)
    (_ht : tableInv t) (hwt : t dim = [w]) (hdim : dim ≠ 0) :
    tableInv (dealer_run empty_table arrs) ∧
    (dealer_arrival t 0x31 dim conn).2 = some (w, conn) ∧
    (dealer_arrival t 0x31 dim conn).1 dim = [] ∧
    ∀ sa0 sa1 sb0 sb1 : Nat → Nat, ∀ sc0 rsid : Nat,
      (serve_pair w conn dim sa0 sa1 sb0 sb1 sc0 rsid).map (fun e => e.1)
          = [w, conn] ∧
      ∀ e ∈ serve_pair w conn dim sa0 sa1 sb0 sb1 sc0 rsid, e.2.2 = true := by
  refine ⟨dealer_run_inv arrs empty_table (fun d => by simp [empty_table]),
    ?_, ?_, ?_⟩
  · unfold dealer_arrival
    rw [if_neg (by simp [hdim])]
    unfold table_step
    rw [hwt]
  · unfold dealer_arrival
    rw [if_neg (by simp [hdim])]
    unfold table_step
    rw [hwt]
    simp
  · intro sa0 sa1 sb0 sb1 sc0 rsid
    constructor
    · rfl
    · intro e he
      simp only [serve_pair, List.mem_cons, List.not_mem_nil, or_false,
        List.mem_singleton] at he
      rcases he with rfl | rfl
      · rfl
      · rfl

/-- Witness for C7: no prior arrivals, a table with one waiter (id 9) at
dimension 4, and an arriving connection (id 5). -/
theorem c7_witness :
    tableInv (dealer_run empty_table []) ∧
    (dealer_arrival (fun d => if d = 4 then [9] else []) 0x31 4 5).2
        = some (9, 5) ∧
    (dealer_arrival (fun d => if d = 4 then [9] else []) 0x31 4 5).1 4 = [] ∧
    ∀ sa0 sa1 sb0 sb1 : Nat → Nat, ∀ sc0 rsid : Nat,
      (serve_pair 9 5 4 sa0 sa1 sb0 sb1 sc0 rsid).map (fun e => e.1)
          = [9, 5] ∧
      ∀ e ∈ serve_pair 9 5 4 sa0 sa1 sb0 sb1 sc0 rsid, e.2.2 = true :=
  c7_dealer_pairing [] (fun d => if d = 4 then [9] else []) 4 5 9
    (by
      intro d
      by_cases h : d = 4 <;> simp [h])
    (by simp) (by decide)

/- Residual-receive helper lemmas for C8. -/

theorem recv_two_vecs_closed (f : ResidualFrame) (es : Int) (et ed : Nat) :
    (recv_two_vecs f es et ed).closed = true := by
  unfold recv_two_vecs
  split
  · rfl
  · split <;> rfl

theorem recv_error_of_mismatch (f : ResidualFrame) (es : Int) (et ed : Nat)
    (h : headerMismatch f es et ed) :
    ∃ e, (recv_two_vecs f es et ed).result = Except.error e := by
  unfold recv_two_vecs
  by_cases h1 : f.sid ≠ es ∨ f.tag ≠ et ∨ f.u_part.length ≠ ed
  · rw [if_pos h1]
    exact ⟨_, rfl⟩
  · rw [if_neg h1]
    unfold headerMismatch at h
    have h2 : f.v_part.length ≠ ed := by tauto
    rw [if_pos h2]
    exact ⟨_, rfl⟩

theorem recv_ok_of_match (f : ResidualFrame) (es : Int) (et ed : Nat)
    (h : ¬ headerMismatch f es et ed) :
    (recv_two_vecs f es et ed).result = Except.ok (f.u_part, f.v_part) := by
  unfold headerMismatch at h
  push_neg at h
  unfold recv_two_vecs
  rw [if_neg (by simp [h.1, h.2.1, h.2.2.1]), if_neg (by simp [h.2.2.2])]

theorem dta_cross_io_error (role : Role) (xs : Bool) (mi a_i b_i : List Int)
    (c_i : Int) (sid : Int) (tag dimv : Nat) (f : ResidualFrame)
    (hlen : mi.length = dimv) (h : headerMismatch f sid tag dimv) :
    ∃ e, dta_cross_io role xs mi a_i b_i c_i sid tag f = Except.error e := by
  unfold dta_cross_io
  rw [hlen]
  obtain ⟨e, he⟩ := recv_error_of_mismatch f sid tag dimv h
  rw [he]
  exact ⟨e, rfl⟩

theorem dta_cross_io_ok (role : Role) (xs : Bool) (mi a_i b_i : List Int)
    (c_i : Int) (sid : Int) (tag dimv : Nat) (f : ResidualFrame)
    (hlen : mi.length = dimv) (h : ¬ headerMismatch f sid tag dimv) :
    dta_cross_io role xs mi a_i b_i c_i sid tag f
      = Except.ok (dta_cross role xs mi a_i b_i c_i f.u_part f.v_part) := by
  unfold dta_cross_io
  rw [hlen, recv_ok_of_match f sid tag dimv h]

/-- C8: if a residual frame received during a READ (whether the 0x01 or the
0x10 cross-term) carries a `sid`, tag, or either vector length different
from the expected one, the party closes the residual connection and aborts
the READ: the client's reply socket is closed without an i64 being sent. -/
theorem c8_header_mismatch_aborts_read (role : Role) (rows : Nat)
    (share vec : List Int) (dim : Nat) (env : ReadEnv)
    (hdim : dim = rows) (hsh : share.length = dim) (hvec : vec.length = dim)
    (hop : env.reply.op = 0x33) (hrd : env.reply.rdim = dim)
    (hmm : headerMismatch env.frame01 env.reply.sid 0x01 dim ∨
      (¬ headerMismatch env.frame01 env.reply.sid 0x01 dim ∧
        headerMismatch env.frame10 env.reply.sid 0x10 dim)) :
    (handle_conn role rows share (Request.readSecure dim vec env)).2.1 = none ∧
    (recv_two_vecs env.frame01 env.reply.sid 0x01 dim).closed = true ∧
    (recv_two_vecs env.frame10 env.reply.sid 0x10 dim).closed = true := by
  refine ⟨?_, recv_two_vecs_closed _ _ _ _, recv_two_vecs_closed _ _ _ _⟩
  have hfetch : fetch_share env.reply dim
      = Except.ok (env.reply.sid, env.reply.a_i, env.reply.b_i, env.reply.c_i) := by
    unfold fetch_share
    rw [if_neg (by simp [hop]), if_neg (by simp [hrd])]
  have herr : ∃ e, handle_read role dim share vec env = Except.error e := by
    rcases hmm with h01 | ⟨h01ok, h10⟩
    · cases role with
      | A =>
        obtain ⟨e, he⟩ := dta_cross_io_error Role.A true share env.reply.a_i
          env.reply.b_i env.reply.c_i env.reply.sid 0x01 dim env.frame01 hsh h01
        exact ⟨e, by simp [handle_read, hfetch, he]⟩
      | B =>
        obtain ⟨e, he⟩ := dta_cross_io_error Role.B false vec env.reply.a_i
          env.reply.b_i env.reply.c_i env.reply.sid 0x01 dim env.frame01 hvec h01
        exact ⟨e, by simp [handle_read, hfetch, he]⟩
    · cases role with
      | A =>
        have hok := dta_cross_io_ok Role.A true share env.reply.a_i
          env.reply.b_i env.reply.c_i env.reply.sid 0x01 dim env.frame01 hsh h01ok
        obtain ⟨e, he⟩ := dta_cross_io_error Role.A false vec env.reply.a_i
          env.reply.b_i env.reply.c_i env.reply.sid 0x10 dim env.frame10 hvec h10
        exact ⟨e, by simp [handle_read, hfetch, hok, he]⟩
      | B =>
        have hok := dta_cross_io_ok Role.B false vec env.reply.a_i
          env.reply.b_i env.reply.c_i env.reply.sid 0x01 dim env.frame01 hvec h01ok
        obtain ⟨e, he⟩ := dta_cross_io_error Role.B true share env.reply.a_i
          env.reply.b_i env.reply.c_i env.reply.sid 0x10 dim env.frame10 hsh h10
        exact ⟨e, by simp [handle_read, hfetch, hok, he]⟩
  obtain ⟨e, he⟩ := herr
  simp only [handle_conn]
  rw [if_neg (by simp [hdim]), he]

/-- Witness for C8: a concrete READ where the 0x01 frame's sid (8) differs
from the dealer's sid (7). -/
theorem c8_witness :
    (handle_conn Role.A 1 [0]
        (Request.readSecure 1 [0]
          ⟨⟨0x33, 1, 7, [1], [1], 1⟩, ⟨8, 0x01, [0], [0]⟩,
            ⟨7, 0x10, [0], [0]⟩⟩)).2.1 = none ∧
    (recv_two_vecs (⟨8, 0x01, [0], [0]⟩ : ResidualFrame) 7 0x01 1).closed
        = true ∧
    (recv_two_vecs (⟨7, 0x10, [0], [0]⟩ : ResidualFrame) 7 0x10 1).closed
        = true :=
  c8_header_mismatch_aborts_read Role.A 1 [0] [0] 1
    ⟨⟨0x33, 1, 7, [1], [1], 1⟩, ⟨8, 0x01, [0], [0]⟩, ⟨7, 0x10, [0], [0]⟩⟩
    rfl rfl rfl rfl rfl (Or.inl (by decide))

end DuoramPy
